import Mathlib

/-!
Shallow embedding of `main.py` from the `ipv4-dhcpd-to-kea` repository: the
DHCP static-lease parsing and record-normalization pipeline.  Text is
modelled as `List Char`; Python `bytes` as `List Nat` (one entry per byte);
a Python function that can raise an exception is modelled as returning an
`Option` whose `none` stands for the raised exception.
-/

namespace DhcpdToKea

set_option maxRecDepth 100000

/-- Python ASCII whitespace, the characters matched by the regex class
backslash-s on ASCII input (space, tab, newline, carriage return, vertical
tab, form feed).  Unicode whitespace is outside the modelled input space. -/
def isPySpace (c : Char) : Bool :=
  c = ' ' || c = '\t' || c = '\n' || c = '\r' || c = Char.ofNat 11 || c = Char.ofNat 12

/-- Python `str.split(sep)` for a one-character separator: splitting the
empty string yields one empty part, and every separator occurrence opens a
new part.  Used for `mac.split(':')`, `s.split('=')` and the octet split
inside the address conversion. -/
def splitOnChar (sep : Char) : List Char → List (List Char)
  | [] => [[]]
  | c :: rest =>
    if c = sep then [] :: splitOnChar sep rest
    else
      match splitOnChar sep rest with
      | p :: ps => (c :: p) :: ps
      | [] => [[c]]

/-- Python `part.zfill(2)`: left-pad with zeros to width 2, keeping a
leading sign character in front of the padding. -/
def zfill2 (part : List Char) : List Char :=
  match part with
  | [] => ['0', '0']
  | [c] => if c = '+' ∨ c = '-' then [c, '0'] else ['0', c]
  | long => long

/-- Value of a hexadecimal digit, accepting both letter cases, `none` for a
non-hex character. -/
def hexVal? (c : Char) : Option Nat :=
  if '0' ≤ c ∧ c ≤ '9' then some (c.toNat - '0'.toNat)
  else if 'a' ≤ c ∧ c ≤ 'f' then some (c.toNat - 'a'.toNat + 10)
  else if 'A' ≤ c ∧ c ≤ 'F' then some (c.toNat - 'A'.toNat + 10)
  else none

/-- `binascii.unhexlify`: decode a hex string two characters per byte;
fails (raises `binascii.Error`, modelled as `none`) on a non-hexadecimal
digit or an odd-length string. -/
def unhexlify : List Char → Option (List Nat)
  | [] => some []
  | [_] => none
  | c1 :: c2 :: rest =>
    match hexVal? c1, hexVal? c2, unhexlify rest with
    | some h, some l, some bs => some ((16 * h + l) :: bs)
    | _, _, _ => none

/-- Local `formatted_mac` of `mac_to_bytea`: split the MAC string on
colons, zero-pad each part to two characters, and join without colons. -/
def formatted_mac (mac : List Char) : List Char :=
  ((splitOnChar ':' mac).map zfill2).flatten

/-- `mac_to_bytea` from `main.py`: hex-decode the padded, joined MAC
string.  The caught-and-reraised `binascii.Error` is the `none` case. -/
def mac_to_bytea (mac : List Char) : Option (List Nat) :=
  unhexlify (formatted_mac mac)

/-- Decimal digit test. -/
def isDecDigit (c : Char) : Bool := '0' ≤ c && c ≤ '9'

/-- Value of a nonempty all-decimal-digit string, `none` otherwise. -/
def decNat? (s : List Char) : Option Nat :=
  if s ≠ [] ∧ s.all isDecDigit then
    some (s.foldl (fun acc c => 10 * acc + (c.toNat - '0'.toNat)) 0)
  else none

/-- Python `int(str)` on the inputs this program feeds it: surrounding
whitespace is stripped, an optional single sign is accepted, then a
nonempty run of decimal digits.  (Underscore separators and non-ASCII
digits are outside the modelled input space.)  `none` models the raised
`ValueError`. -/
def pyInt (s : List Char) : Option Int :=
  let t := (s.dropWhile isPySpace).reverse.dropWhile isPySpace |>.reverse
  match t with
  | '+' :: ds => (decNat? ds).map Int.ofNat
  | '-' :: ds => (decNat? ds).map (fun n => -(Int.ofNat n))
  | ds => (decNat? ds).map Int.ofNat

/-- CPython `dict` assignment `d[k] = v` on a dictionary represented as its
insertion-ordered association list: a new key is appended at the end, an
existing key keeps its position and gets the new value. -/
def dictInsert (k : List Char) (v : Int) : List (List Char × Int) → List (List Char × Int)
  | [] => [(k, v)]
  | (k', v') :: t => if k' = k then (k, v) :: t else (k', v') :: dictInsert k v t

/-- Loop body of `parse_subnet_mappings`: for each string, split on `=`;
with exactly two parts, `int` the second (a failure there is the uncaught
`ValueError`, modelled as `none` for the whole call) and assign into the
dict; otherwise the string is skipped with no effect. -/
def parse_subnet_mappings_aux (acc : List (List Char × Int)) :
    List (List Char) → Option (List (List Char × Int))
  | [] => some acc
  | s :: rest =>
    match splitOnChar '=' s with
    | [p, v] =>
      match pyInt v with
      | some n => parse_subnet_mappings_aux (dictInsert p n acc) rest
      | none => none
    | _ => parse_subnet_mappings_aux acc rest

/-- `parse_subnet_mappings` from `main.py`.  The second component is the
list of console messages the function prints: the only print is the
"no subnet mappings provided" warning for an empty input list — the loop
itself never reports anything. -/
def parse_subnet_mappings (subnet_strings : List (List Char)) :
    Option (List (List Char × Int)) × List String :=
  (parse_subnet_mappings_aux [] subnet_strings,
   if subnet_strings.isEmpty then ["Warning: No subnet mappings provided."] else [])

/-- Loop of `subnet_lookup`: first entry whose textual prefix starts the
address wins; the pair mirrors the `(subnet_id, None)` return value. -/
def subnet_lookup_loop (ip : List Char) : List (List Char × Int) → Option Int × Option Int
  | [] => (none, none)
  | (pfx, sid) :: t =>
    if pfx.isPrefixOf ip then (some sid, none) else subnet_lookup_loop ip t

/-- `subnet_lookup` from `main.py`: an empty (falsy) address short-circuits
to no match; otherwise scan the map in insertion order. -/
def subnet_lookup (ip_address : List Char) (subnet_map : List (List Char × Int)) :
    Option Int × Option Int :=
  if ip_address.isEmpty then (none, none) else subnet_lookup_loop ip_address subnet_map

/-- Decimal octet as `inet_aton` reads one in a dotted quad: nonempty
digits, value at most 255, and no leading zero (a leading zero selects the
octal reading, outside the modelled input space). -/
def decOctet? (s : List Char) : Option Nat :=
  match decNat? s with
  | some n =>
    if n ≤ 255 ∧ (s.head? = some '0' → s = ['0']) then some n else none
  | none => none

/-- Composition `struct.unpack("!I", socket.inet_aton(ip))[0]` on the
standard four-part dotted-decimal form: big-endian 32-bit value of the four
octets.  Other `inet_aton` spellings (fewer parts, hex or octal octets)
are outside the modelled input space; `none` models the raised `OSError`. -/
def inet_aton_be (ip : List Char) : Option Nat :=
  match (splitOnChar '.' ip).mapM decOctet? with
  | some [a, b, c, d] => some (a * 16777216 + b * 65536 + c * 256 + d)
  | _ => none

/-- `ip_to_int` from `main.py`: empty (falsy) string gives 0, otherwise the
big-endian integer of the dotted quad. -/
def ip_to_int (ip : List Char) : Option Nat :=
  if ip.isEmpty then some 0 else inet_aton_be ip

/-- Opening curly brace character. -/
def lbrace : Char := Char.ofNat 123

/-- Closing curly brace character. -/
def rbrace : Char := Char.ofNat 125

/-- Character class of the regex MAC token: decimal digit, hex letter of
either case, or colon. -/
def isHexColon (c : Char) : Bool := (hexVal? c).isSome || c = ':'

/-- Case-insensitive literal match (the regex is compiled with
`re.IGNORECASE`): consume the pattern from the front of the input,
returning the rest, comparing characters through `Char.toLower`. -/
def litMatchCi : List Char → List Char → Option (List Char)
  | [], s => some s
  | _ :: _, [] => none
  | p :: ps, c :: cs => if p.toLower = c.toLower then litMatchCi ps cs else none

/-- Split off the maximal leading run of non-whitespace characters, the
deterministic match of a greedy backslash-S-plus followed by a whitespace
or end-of-input boundary. -/
def takeNonSpace : List Char → List Char × List Char
  | [] => ([], [])
  | c :: cs =>
    if isPySpace c then ([], c :: cs)
    else
      let (r, rest) := takeNonSpace cs
      (c :: r, rest)

/-- Greedy backslash-s-star: drop the maximal leading whitespace run.  In
`lease_pattern` every such gap is followed by a required non-whitespace
character, so the greedy reading is the only one. -/
def dropSpaces : List Char → List Char
  | [] => []
  | c :: cs => if isPySpace c then dropSpaces cs else c :: cs

/-- Consume exactly `n` characters satisfying `p` (the bounded repetition
of a character class, here the 17-character MAC token). -/
def takeN (p : Char → Bool) : Nat → List Char → Option (List Char × List Char)
  | 0, s => some ([], s)
  | _ + 1, [] => none
  | n + 1, c :: cs =>
    if p c then (takeN p n cs).map (fun r => (c :: r.1, r.2)) else none

/-- Decompositions `s = cap ++ ';' :: rest` with `cap` a possibly-empty
run of non-whitespace characters, in decreasing capture length: the
backtracking order in which the regex engine tries a greedy
backslash-S-star in front of a literal semicolon. -/
def semiSplits0 : List Char → List (List Char × List Char)
  | [] => []
  | c :: cs =>
    if isPySpace c then []
    else
      ((semiSplits0 cs).map fun p => (c :: p.1, p.2)) ++
        (if c = ';' then [(([] : List Char), cs)] else [])

/-- Candidate matches of `(backslash-S-plus);` at the front of the input,
greedy-first: the capture must be nonempty, so it starts with one
non-whitespace character and continues with a possibly-empty run. -/
def semiCandidates : List Char → List (List Char × List Char)
  | [] => []
  | c :: cs =>
    if isPySpace c then []
    else (semiSplits0 cs).map fun p => (c :: p.1, p.2)

/-- Captured groups of one `lease_pattern` match, in group order:
hostname, optional first `fixed-address` capture, hardware address,
optional second `fixed-address` capture.  Unmatched optional groups are the
empty string, exactly as `re.findall` reports them. -/
structure RawMatch where
  hostname : List Char
  fa1 : List Char
  hwaddr : List Char
  fa2 : List Char
deriving DecidableEq, Repr

/-- Pattern literal `host ` (with its trailing single space). -/
def hostLit : List Char := "host ".data

/-- Pattern literal `hardware ethernet ` (with its trailing single space). -/
def hwLit : List Char := "hardware ethernet ".data

/-- Pattern literal `fixed-address ` (with its trailing single space). -/
def faLit : List Char := "fixed-address ".data

/-- Attempt of the optional trailing group `fixed-address (token);`
followed by greedy whitespace and the closing brace: each semicolon
candidate is tried in the engine's greedy order. -/
def closeGroup (hn fa1 mac : List Char) (s4 : List Char) : Option (RawMatch × List Char) :=
  match litMatchCi faLit s4 with
  | none => none
  | some s5 =>
    (semiCandidates s5).findSome? fun p =>
      match dropSpaces p.2 with
      | c :: s7 => if c = rbrace then some (⟨hn, fa1, mac, p.1⟩, s7) else none
      | [] => none

/-- Fallback when the trailing optional group is skipped: the closing
brace must follow directly. -/
def closeNoGroup (hn fa1 mac : List Char) (s4 : List Char) : Option (RawMatch × List Char) :=
  match s4 with
  | c :: s5 => if c = rbrace then some (⟨hn, fa1, mac, []⟩, s5) else none
  | [] => none

/-- End of `lease_pattern` after the hardware line's semicolon and
whitespace: the greedy engine first tries to take the optional trailing
`fixed-address` group, then falls back to the bare closing brace. -/
def matchClose (hn fa1 mac : List Char) (s4 : List Char) : Option (RawMatch × List Char) :=
  match closeGroup hn fa1 mac s4 with
  | some r => some r
  | none => closeNoGroup hn fa1 mac s4

/-- Tail of `lease_pattern` from the `hardware ethernet` keyword: the
literal, the 17-character MAC token, a semicolon, greedy whitespace, then
the block close. -/
def matchFromHw (hn fa1 : List Char) (s : List Char) : Option (RawMatch × List Char) :=
  match litMatchCi hwLit s with
  | none => none
  | some s1 =>
    match takeN isHexColon 17 s1 with
    | none => none
    | some (mac, s2) =>
      match s2 with
      | ';' :: s3 => matchClose hn fa1 mac (dropSpaces s3)
      | _ => none

/-- Attempt of the optional leading group `fixed-address (token);` with
greedy whitespace, continuing at the hardware line. -/
def bodyGroup (hn : List Char) (s4 : List Char) : Option (RawMatch × List Char) :=
  match litMatchCi faLit s4 with
  | none => none
  | some s5 =>
    (semiCandidates s5).findSome? fun p => matchFromHw hn p.1 (dropSpaces p.2)

/-- Middle of `lease_pattern` after `host <hostname> <lbrace>` and its
greedy whitespace: the optional first `fixed-address` group is tried
first, then the match continues at the hardware line without it. -/
def matchFromBody (hn : List Char) (s4 : List Char) : Option (RawMatch × List Char) :=
  match bodyGroup hn s4 with
  | some r => some r
  | none => matchFromHw hn [] s4

/-- Attempt of `lease_pattern` anchored at the current position: literal
`host `, nonempty hostname token, literal space and opening brace, greedy
whitespace, then the block body. -/
def matchAt (s : List Char) : Option (RawMatch × List Char) :=
  match litMatchCi hostLit s with
  | none => none
  | some s1 =>
    match takeNonSpace s1 with
    | (hn, s2) =>
      if hn = [] then none
      else
        match s2 with
        | sp :: c :: s3 =>
          if sp = ' ' ∧ c = lbrace then matchFromBody hn (dropSpaces s3) else none
        | _ => none

/-- Scan loop of `re.findall`: try the pattern at each position from left
to right, and continue after the end of each (nonempty) match.  The fuel
argument only bounds the recursion; `lease_pattern_findall` supplies
enough for the whole input. -/
def findAllAux : Nat → List Char → List RawMatch
  | 0, _ => []
  | _ + 1, [] => []
  | fuel + 1, c :: t =>
    match matchAt (c :: t) with
    | some (m, rest) => m :: findAllAux fuel rest
    | none => findAllAux fuel t

/-- `lease_pattern.findall(content)` from `main.py`. -/
def lease_pattern_findall (content : List Char) : List RawMatch :=
  findAllAux (content.length + 1) content

/-- Lease dictionary built by `parse_dhcp_leases`, field for field.  The
`dhcp_identifier` still holds the raw MAC string at this stage; it is
converted to bytes only inside `insert_leases_to_db`. -/
structure Lease where
  dhcp_identifier : List Char
  dhcp_identifier_type : Nat
  dhcp4_subnet_id : Int
  dhcp6_subnet_id : Option Int
  ipv4_address : Nat
  hostname : List Char
  dhcp4_client_classes : Option (List Char)
  dhcp6_client_classes : List Char
  dhcp4_next_server : Nat
  dhcp4_server_hostname : List Char
  dhcp4_boot_file_name : List Char
  user_context : List Char
  auth_key : List Char
deriving DecidableEq, Repr

/-- Python `a or b` on strings: the first operand when it is truthy
(nonempty), the second otherwise.  Models
`fixed_address1 or fixed_address2`. -/
def py_or (a b : List Char) : List Char :=
  if a.isEmpty then b else a

/-- Loop body of `parse_dhcp_leases` for one regex match: pick the first
nonempty `fixed-address` capture, resolve the subnet with default
fallback, convert the address (an `inet_aton` failure there is the
uncaught `OSError`, modelled as `none`), and assemble the lease dict. -/
def normalize_match (no_ip_client_class : List Char) (default_subnet_id : Int)
    (subnet_map : List (List Char × Int)) (m : RawMatch) : Option Lease :=
  let fixed_address := py_or m.fa1 m.fa2
  let ids := subnet_lookup fixed_address subnet_map
  let dhcp4_subnet_id :=
    match ids.1 with
    | some sid => sid
    | none => default_subnet_id
  let ipOpt := if fixed_address.isEmpty then some 0 else ip_to_int fixed_address
  match ipOpt with
  | none => none
  | some ipv4_int_address =>
    some
      { dhcp_identifier := m.hwaddr
        dhcp_identifier_type := 0
        dhcp4_subnet_id := dhcp4_subnet_id
        dhcp6_subnet_id := ids.2
        ipv4_address := ipv4_int_address
        hostname := m.hostname
        dhcp4_client_classes :=
          if fixed_address ≠ [] then none else some no_ip_client_class
        dhcp6_client_classes := []
        dhcp4_next_server := 0
        dhcp4_server_hostname := []
        dhcp4_boot_file_name := []
        user_context := []
        auth_key := [] }

/-- `parse_dhcp_leases` from `main.py`, applied to the file's text content:
run the regex over the whole text and normalize each match in document
order.  `none` models an uncaught exception escaping the loop. -/
def parse_dhcp_leases (content : List Char) (no_ip_client_class : List Char)
    (default_subnet_id : Int) (subnet_map : List (List Char × Int)) :
    Option (List Lease) :=
  (lease_pattern_findall content).mapM
    (normalize_match no_ip_client_class default_subnet_id subnet_map)

/-- Row handed to the storage sink: the lease with its identifier replaced
by the decoded bytes, mirroring the in-place
`lease['dhcp_identifier'] = mac_to_bytea(...)` mutation. -/
structure DBRow where
  dhcp_identifier : List Nat
  dhcp_identifier_type : Nat
  dhcp4_subnet_id : Int
  dhcp6_subnet_id : Option Int
  ipv4_address : Nat
  hostname : List Char
  dhcp4_client_classes : Option (List Char)
deriving DecidableEq, Repr

/-- Identifier conversion step shared by the dry-run and live branches of
`insert_leases_to_db`; `none` is the propagating `binascii.Error`. -/
def encodeLease (l : Lease) : Option DBRow :=
  match mac_to_bytea l.dhcp_identifier with
  | none => none
  | some bs =>
    some
      { dhcp_identifier := bs
        dhcp_identifier_type := l.dhcp_identifier_type
        dhcp4_subnet_id := l.dhcp4_subnet_id
        dhcp6_subnet_id := l.dhcp6_subnet_id
        ipv4_address := l.ipv4_address
        hostname := l.hostname
        dhcp4_client_classes := l.dhcp4_client_classes }

/-- Dry-run loop of `insert_leases_to_db`: each lease is converted and
printed in turn; the first conversion failure raises, is caught by the
function-wide handler, and ends the loop.  Returns the printed rows and
whether the error handler ran. -/
def insert_dry : List Lease → List DBRow × Bool
  | [] => ([], false)
  | l :: rest =>
    match encodeLease l with
    | some r =>
      let out := insert_dry rest
      (r :: out.1, out.2)
    | none => ([], true)

/-- Live loop of `insert_leases_to_db`: leases are converted and executed
one by one inside a single transaction; completing the loop commits the
accumulated rows, while any conversion failure reaches the function-wide
handler, which rolls the whole transaction back.  Returns the rows left
committed in the database and whether the error handler ran. -/
def insert_live : List Lease → List DBRow → List DBRow × Bool
  | [], acc => (acc, false)
  | l :: rest, acc =>
    match encodeLease l with
    | some r => insert_live rest (acc ++ [r])
    | none => ([], true)

/-- Observable outcome of `insert_leases_to_db`: the dry-run report lines,
the rows left committed in the database, and whether the error handler
reported a failure. -/
structure InsertOutcome where
  printed : List DBRow
  committed : List DBRow
  errored : Bool
deriving DecidableEq, Repr

/-- `insert_leases_to_db` from `main.py` (the storage sink itself is out
of scope; its successful `execute`/`commit` calls are modelled as
recording rows). -/
def insert_leases_to_db (leases : List Lease) (dry_run : Bool) : InsertOutcome :=
  if dry_run then
    let out := insert_dry leases
    { printed := out.1, committed := [], errored := out.2 }
  else
    let out := insert_live leases []
    { printed := [], committed := out.1, errored := out.2 }

/-- Two-block §8 scenario input text: host alpha with a fixed address and
host beta without one. -/
def s8content : List Char :=
  ("host alpha \x7b\n  hardware ethernet 00:11:22:33:44:55;\n" ++
   "  fixed-address 128.111.106.10;\n\x7d\n" ++
   "host beta \x7b\n  hardware ethernet aa:bb:cc:dd:ee:ff;\n\x7d\n").data

/-- End-to-end pipeline of `main` on the §8 scenario: build the subnet map
from `128.111.106=3`, then parse the lease text with default subnet id 0
and the default no-IP client class. -/
def s8pipeline : Option (List Lease) :=
  (parse_subnet_mappings ["128.111.106=3".data]).1.bind
    (parse_dhcp_leases s8content "no-ip-reservations".data 0)

/-- Lease whose hardware address `zz:zz:zz:zz:zz:zz` fails hex encoding. -/
def badLease : Lease :=
  { dhcp_identifier := "zz:zz:zz:zz:zz:zz".data
    dhcp_identifier_type := 0
    dhcp4_subnet_id := 0
    dhcp6_subnet_id := none
    ipv4_address := 0
    hostname := "badhost".data
    dhcp4_client_classes := some "no-ip-reservations".data
    dhcp6_client_classes := []
    dhcp4_next_server := 0
    dhcp4_server_hostname := []
    dhcp4_boot_file_name := []
    user_context := []
    auth_key := [] }

/-- Lease whose hardware address encodes cleanly. -/
def goodLease : Lease :=
  { dhcp_identifier := "00:11:22:33:44:55".data
    dhcp_identifier_type := 0
    dhcp4_subnet_id := 3
    dhcp6_subnet_id := none
    ipv4_address := 2154785290
    hostname := "goodhost".data
    dhcp4_client_classes := none
    dhcp6_client_classes := []
    dhcp4_next_server := 0
    dhcp4_server_hostname := []
    dhcp4_boot_file_name := []
    user_context := []
    auth_key := [] }

/-- Row `goodLease` becomes after identifier encoding. -/
def goodRow : DBRow :=
  { dhcp_identifier := [0, 17, 34, 51, 68, 85]
    dhcp_identifier_type := 0
    dhcp4_subnet_id := 3
    dhcp6_subnet_id := none
    ipv4_address := 2154785290
    hostname := "goodhost".data
    dhcp4_client_classes := none }

/-- Identifier conversion of a whole batch: `some` of the converted rows
when every lease's MAC decodes, `none` as soon as one fails. -/
def encodeAll : List Lease → Option (List DBRow)
  | [] => some []
  | l :: rest =>
    match encodeLease l, encodeAll rest with
    | some r, some rs => some (r :: rs)
    | _, _ => none

/-- Well-formedness token predicate for the captured MAC: exactly 17
characters, each a hex digit or a colon. -/
@[reducible] def macShaped (mac : List Char) : Prop :=
  mac.length = 17 ∧ ∀ c ∈ mac, isHexColon c

/-- Case-variant relation: two strings agree after lowercasing, the
equivalence `re.IGNORECASE` matching induces. -/
@[reducible] def lowerEq (a b : List Char) : Prop :=
  a.map Char.toLower = b.map Char.toLower

/-- Nonempty whitespace-free token, the shape of a captured
backslash-S-plus group. -/
@[reducible] def nonSpaceTok (t : List Char) : Prop :=
  t ≠ [] ∧ ∀ c ∈ t, isPySpace c = false

/-- Address token: nonempty, whitespace-free and semicolon-free (a
semicolon inside the token would end the capture early). -/
@[reducible] def faTok (t : List Char) : Prop :=
  nonSpaceTok t ∧ ';' ∉ t

/-- Whitespace filler between the statements of a block. -/
@[reducible] def allSpace (w : List Char) : Prop :=
  ∀ c ∈ w, isPySpace c = true

/-- Guard used by the semicolon-capture lemmas: the leading
non-whitespace run holds no semicolon. -/
def noSemiRun : List Char → Bool
  | [] => true
  | c :: cs => if isPySpace c then true else decide (c ≠ ';') && noSemiRun cs

/-- Reservation block without a `fixed-address` line, with case-variant
keywords and explicit whitespace fillers. -/
def blockNoFa (Hv hn w1 HWv mac w3 : List Char) : List Char :=
  Hv ++ (' ' :: (hn ++ (' ' :: lbrace ::
    (w1 ++ (HWv ++ (' ' :: (mac ++ (';' :: (w3 ++ [rbrace])))))))))

/-- Reservation block with the `fixed-address` line before the hardware
line. -/
def blockFaBefore (Hv hn w1 Fv fa w2 HWv mac w3 : List Char) : List Char :=
  Hv ++ (' ' :: (hn ++ (' ' :: lbrace ::
    (w1 ++ (Fv ++ (' ' :: (fa ++ (';' ::
      (w2 ++ (HWv ++ (' ' :: (mac ++ (';' :: (w3 ++ [rbrace]))))))))))))))

/-- Reservation block with the `fixed-address` line after the hardware
line. -/
def blockFaAfter (Hv hn w1 HWv mac w2 Fv fa w3 : List Char) : List Char :=
  Hv ++ (' ' :: (hn ++ (' ' :: lbrace ::
    (w1 ++ (HWv ++ (' ' :: (mac ++ (';' ::
      (w2 ++ (Fv ++ (' ' :: (fa ++ (';' :: (w3 ++ [rbrace]))))))))))))))

/-- Block shaped like a reservation but lacking the hardware-ethernet
line (only a `fixed-address` line inside the braces). -/
def blockNoHw (Hv hn w1 Fv fa w2 : List Char) : List Char :=
  Hv ++ (' ' :: (hn ++ (' ' :: lbrace ::
    (w1 ++ (Fv ++ (' ' :: (fa ++ (';' :: (w2 ++ [rbrace])))))))))

/-- Block with an empty body: no hardware-ethernet line at all. -/
def blockBare (Hv hn w1 : List Char) : List Char :=
  Hv ++ (' ' :: (hn ++ (' ' :: lbrace :: (w1 ++ [rbrace]))))

/-- C1 counterexample: on the §8 input the pipeline encodes alpha's
address `128.111.106.10` to the big-endian integer 2154785290, not the
2159280394 the claim states (the latter decodes to `128.180.1.10`). -/
theorem C1_counterexample :
    s8pipeline.map (List.map Lease.ipv4_address) = some [2154785290, 0] ∧
      (2154785290 : Nat) ≠ 2159280394 := by
  constructor
  · decide
  · decide

/-- C1 (amended): on the §8 input with subnet map `128.111.106=3`,
default subnet id 0 and no-IP class `no-ip-reservations`, the pipeline
produces exactly the two records in document order: alpha with subnet id
3, address 2154785290 (the big-endian integer of `128.111.106.10`) and
null client classes; beta with subnet id 0, address 0 and client class
`no-ip-reservations`. -/
theorem C1_end_to_end :
    s8pipeline =
      some
        [{ dhcp_identifier := "00:11:22:33:44:55".data
           dhcp_identifier_type := 0
           dhcp4_subnet_id := 3
           dhcp6_subnet_id := none
           ipv4_address := 2154785290
           hostname := "alpha".data
           dhcp4_client_classes := none
           dhcp6_client_classes := []
           dhcp4_next_server := 0
           dhcp4_server_hostname := []
           dhcp4_boot_file_name := []
           user_context := []
           auth_key := [] },
         { dhcp_identifier := "aa:bb:cc:dd:ee:ff".data
           dhcp_identifier_type := 0
           dhcp4_subnet_id := 0
           dhcp6_subnet_id := none
           ipv4_address := 0
           hostname := "beta".data
           dhcp4_client_classes := some "no-ip-reservations".data
           dhcp6_client_classes := []
           dhcp4_next_server := 0
           dhcp4_server_hostname := []
           dhcp4_boot_file_name := []
           user_context := []
           auth_key := [] }] := by
  decide

/-- C7: the unpadded mixed-case MAC `1:2:3:a:B:c` encodes to exactly the
same six bytes as the zero-padded lowercase `01:02:03:0a:0b:0c`. -/
theorem C7_mac_pad_case :
    mac_to_bytea "1:2:3:a:B:c".data = mac_to_bytea "01:02:03:0a:0b:0c".data ∧
      mac_to_bytea "01:02:03:0a:0b:0c".data = some [1, 2, 3, 10, 11, 12] := by
  decide

/-- C2 counterexample: `00:11` has only valid hexadecimal parts, decodes
without any error, and yields a 2-byte identifier — refuting both the
claimed error condition (decoded result not exactly 6 bytes) and the
claimed 6-byte guarantee on success. -/
theorem C2_counterexample :
    mac_to_bytea "00:11".data = some [0, 17] ∧ ([0, 17] : List Nat).length ≠ 6 := by
  decide

/-- C5 counterexample: registering `10.0=1` then `10.0=2` leaves one
entry whose value is the last registration, so resolving `10.0.0.5`
returns 2 — not the id 1 of the first registered matching rule. -/
theorem C5_counterexample :
    (parse_subnet_mappings ["10.0=1".data, "10.0=2".data]).1 =
        some [("10.0".data, 2)] ∧
      subnet_lookup "10.0.0.5".data [("10.0".data, 2)] = (some 2, none) ∧
      (some 2 : Option Int) ≠ some 1 := by
  decide

/-- C3 counterexample: in a live batch where the first record's MAC fails
encoding, the error aborts the whole run — the well-formed subsequent
record is not inserted (the transaction is rolled back to nothing), even
though alone it would have been committed. -/
theorem C3_counterexample :
    insert_leases_to_db [badLease, goodLease] false =
        { printed := [], committed := [], errored := true } ∧
      insert_leases_to_db [goodLease] false =
        { printed := [], committed := [goodRow], errored := false } := by
  decide

/-- C8 counterexample: a dry run over a batch holding a record with an
undecodable MAC reports nothing at all — neither the offending record nor
the well-formed record after it is printed, refuting the claim that every
record is reported in dry-run mode. -/
theorem C8_counterexample :
    insert_leases_to_db [badLease, goodLease] true =
        { printed := [], committed := [], errored := true } ∧
      insert_leases_to_db [goodLease, badLease] true =
        { printed := [goodRow], committed := [], errored := true } := by
  decide

/-- C9 counterexample: the malformed mapping string `abc` (no `=`) is
dropped with neither a failure nor any log message — the call succeeds,
the table only holds the well-formed entry, and the printed output is
empty. -/
theorem C9_counterexample :
    parse_subnet_mappings ["abc".data, "10.0=5".data] =
      (some [("10.0".data, 5)], []) := by
  decide

/-- Live loop: when every lease before the first undecodable one encodes,
the failure empties the transaction and trips the error handler, whatever
was accumulated. -/
theorem insert_live_abort (bad : Lease) (post : List Lease)
    (hbad : encodeLease bad = none) :
    ∀ pre acc, (∀ l ∈ pre, (encodeLease l).isSome) →
      insert_live (pre ++ bad :: post) acc = ([], true)
  | [], acc, _ => by simp [insert_live, hbad]
  | l :: pre, acc, h => by
    obtain ⟨r, hr⟩ := Option.isSome_iff_exists.mp (h l (by simp))
    have ih := insert_live_abort bad post hbad pre (acc ++ [r])
      (fun x hx => h x (by simp [hx]))
    simpa [insert_live, hr] using ih

/-- Live loop: when every lease encodes, the rows are appended to the
accumulator in order and the transaction commits. -/
theorem insert_live_ok :
    ∀ leases rows acc, encodeAll leases = some rows →
      insert_live leases acc = (acc ++ rows, false)
  | [], rows, acc, h => by
    simp only [encodeAll, Option.some_inj] at h
    simp [insert_live, ← h]
  | l :: rest, rows, acc, h => by
    cases hr : encodeLease l with
    | none => simp [encodeAll, hr] at h
    | some r =>
      cases hrs : encodeAll rest with
      | none => simp [encodeAll, hr, hrs] at h
      | some rs =>
        simp only [encodeAll, hr, hrs, Option.some_inj] at h
        have ih := insert_live_ok rest rs (acc ++ [r]) hrs
        simp [insert_live, hr, ih, ← h]

/-- Dry-run loop: when every lease encodes, every converted row is
printed, in order, with no error. -/
theorem insert_dry_ok :
    ∀ leases rows, encodeAll leases = some rows →
      insert_dry leases = (rows, false)
  | [], rows, h => by
    simp only [encodeAll, Option.some_inj] at h
    simp [insert_dry, ← h]
  | l :: rest, rows, h => by
    cases hr : encodeLease l with
    | none => simp [encodeAll, hr] at h
    | some r =>
      cases hrs : encodeAll rest with
      | none => simp [encodeAll, hr, hrs] at h
      | some rs =>
        simp only [encodeAll, hr, hrs, Option.some_inj] at h
        have ih := insert_dry_ok rest rs hrs
        simp [insert_dry, hr, ih, ← h]

/-- Dry-run loop: the first undecodable lease stops the report; exactly
the rows before it are printed and the error handler runs. -/
theorem insert_dry_abort (bad : Lease) (post : List Lease)
    (hbad : encodeLease bad = none) :
    ∀ pre rows, encodeAll pre = some rows →
      insert_dry (pre ++ bad :: post) = (rows, true)
  | [], rows, h => by
    simp only [encodeAll, Option.some_inj] at h
    simp [insert_dry, hbad, ← h]
  | l :: pre, rows, h => by
    cases hr : encodeLease l with
    | none => simp [encodeAll, hr] at h
    | some r =>
      cases hrs : encodeAll pre with
      | none => simp [encodeAll, hr, hrs] at h
      | some rs =>
        simp only [encodeAll, hr, hrs, Option.some_inj] at h
        have ih := insert_dry_abort bad post hbad pre rs hrs
        simp [insert_dry, hr, ih, ← h]

/-- C3 (amended): an EncodingError is not contained per-record — in a
live run the first record whose hardware address fails encoding raises
into the single function-wide handler, the transaction is rolled back,
and neither the earlier nor the subsequent records of the batch end up
inserted; processing does not continue past the failure. -/
theorem C3_batch_abort (pre : List Lease) (bad : Lease) (post : List Lease)
    (hpre : ∀ l ∈ pre, (encodeLease l).isSome) (hbad : encodeLease bad = none) :
    insert_leases_to_db (pre ++ bad :: post) false =
      { printed := [], committed := [], errored := true } := by
  simp [insert_leases_to_db, insert_live_abort bad post hbad pre [] hpre]

/-- Witness for C3 at a concrete batch: a bad first record erases the
whole live run. -/
theorem C3_batch_abort_witness :
    insert_leases_to_db ([] ++ badLease :: [goodLease]) false =
      { printed := [], committed := [], errored := true } :=
  C3_batch_abort [] badLease [goodLease] (by decide) (by decide)

/-- C8 (amended): a dry run touches no persistent storage, and it reports
the would-be-inserted records only up to the first encoding failure: with
every record encodable all of them are reported in order, but records
from the first failure onward are not reported, because the dry run runs
the same encoding step as a live run and aborts like it. -/
theorem C8_dry_run :
    (∀ leases rows, encodeAll leases = some rows →
        insert_leases_to_db leases true =
          { printed := rows, committed := [], errored := false }) ∧
      (∀ pre rows bad post, encodeAll pre = some rows →
        encodeLease bad = none →
        insert_leases_to_db (pre ++ bad :: post) true =
          { printed := rows, committed := [], errored := true }) := by
  constructor
  · intro leases rows h
    simp [insert_leases_to_db, insert_dry_ok leases rows h]
  · intro pre rows bad post hpre hbad
    simp [insert_leases_to_db, insert_dry_abort bad post hbad pre rows hpre]

/-- Witness for C8 at concrete batches: an all-good batch is reported in
full with storage untouched, and a batch with a bad second record only
reports the first. -/
theorem C8_dry_run_witness :
    insert_leases_to_db [goodLease] true =
        { printed := [goodRow], committed := [], errored := false } ∧
      insert_leases_to_db ([goodLease] ++ badLease :: []) true =
        { printed := [goodRow], committed := [], errored := true } :=
  ⟨C8_dry_run.1 [goodLease] [goodRow] (by decide),
   C8_dry_run.2 [goodLease] [goodRow] badLease [] (by decide) (by decide)⟩

/-- Decoding fails exactly on an odd-length hex string or a
non-hexadecimal character. -/
theorem unhexlify_none_iff :
    ∀ s : List Char,
      unhexlify s = none ↔ s.length % 2 = 1 ∨ ∃ c ∈ s, hexVal? c = none
  | [] => by simp [unhexlify]
  | [c] => by simp [unhexlify]
  | c1 :: c2 :: rest => by
    have ih := unhexlify_none_iff rest
    have hmod : (rest.length + 1 + 1) % 2 = rest.length % 2 := by omega
    cases h1 : hexVal? c1 with
    | none => simp [unhexlify, h1]
    | some a =>
      cases h2 : hexVal? c2 with
      | none => simp [unhexlify, h1, h2]
      | some b =>
        cases h3 : unhexlify rest with
        | none =>
          simp [unhexlify, h1, h2, h3]
          rcases ih.mp h3 with hp | ⟨c, hc, hcv⟩
          · left
            omega
          · exact Or.inr ⟨c, hc, hcv⟩
        | some bs =>
          have hnot : ¬(rest.length % 2 = 1 ∨ ∃ c ∈ rest, hexVal? c = none) := by
            rw [← ih]
            simp [h3]
          push_neg at hnot
          obtain ⟨hpar, hgood⟩ := hnot
          simp [unhexlify, h1, h2, h3]
          exact ⟨by omega, hgood⟩

/-- Successful decoding yields exactly half as many bytes as there are
hex characters. -/
theorem unhexlify_some_length :
    ∀ s : List Char, ∀ bs, unhexlify s = some bs → 2 * bs.length = s.length
  | [], bs, h => by
    simp only [unhexlify, Option.some_inj] at h
    simp [← h]
  | [c], bs, h => by simp [unhexlify] at h
  | c1 :: c2 :: rest, bs, h => by
    cases h1 : hexVal? c1 with
    | none => simp [unhexlify, h1] at h
    | some a =>
      cases h2 : hexVal? c2 with
      | none => simp [unhexlify, h1, h2] at h
      | some b =>
        cases h3 : unhexlify rest with
        | none => simp [unhexlify, h1, h2, h3] at h
        | some rs =>
          simp only [unhexlify, h1, h2, h3, Option.some_inj] at h
          have ih := unhexlify_some_length rest rs h3
          simp [← h, List.length_cons]
          omega

/-- C2 (amended): hardware-address encoding raises iff the zero-padded,
colon-joined MAC string has odd length or holds a character that is not a
hexadecimal digit; a successfully produced identifier has half as many
bytes as that padded string has characters — there is no 6-byte check, so
identifiers of other sizes are produced without error. -/
theorem C2_encoding (mac : List Char) :
    (mac_to_bytea mac = none ↔
        (formatted_mac mac).length % 2 = 1 ∨
          ∃ c ∈ formatted_mac mac, hexVal? c = none) ∧
      ∀ bs, mac_to_bytea mac = some bs →
        2 * bs.length = (formatted_mac mac).length :=
  ⟨unhexlify_none_iff (formatted_mac mac),
   fun bs h => unhexlify_some_length (formatted_mac mac) bs h⟩

/-- Witness for C2 at the valid MAC `00:11:22:33:44:55`: six bytes out of
twelve padded characters. -/
theorem C2_encoding_witness :
    2 * ([0, 17, 34, 51, 68, 85] : List Nat).length =
      (formatted_mac "00:11:22:33:44:55".data).length :=
  (C2_encoding "00:11:22:33:44:55".data).2 [0, 17, 34, 51, 68, 85] (by decide)

/-- C9 (amended): a mapping string that does not split into exactly two
parts on `=` is silently skipped — the loop result is unchanged and no
log line reports it, the only print being the global empty-input warning;
a two-part string whose second part is not an integer instead raises an
uncaught ValueError, aborting the call. -/
theorem C9_malformed_mappings :
    (∀ acc s rest, (splitOnChar '=' s).length ≠ 2 →
        parse_subnet_mappings_aux acc (s :: rest) =
          parse_subnet_mappings_aux acc rest) ∧
      (∀ acc s rest p v, splitOnChar '=' s = [p, v] → pyInt v = none →
        parse_subnet_mappings_aux acc (s :: rest) = none) ∧
      ∀ strs, (parse_subnet_mappings strs).2 =
        if strs.isEmpty then ["Warning: No subnet mappings provided."] else [] := by
  refine ⟨?_, ?_, fun strs => rfl⟩
  · intro acc s rest h
    rcases hsp : splitOnChar '=' s with _ | ⟨p, _ | ⟨v, _ | ⟨w, t⟩⟩⟩
    · simp [parse_subnet_mappings_aux, hsp]
    · simp [parse_subnet_mappings_aux, hsp]
    · exact absurd (by simp [hsp]) h
    · simp [parse_subnet_mappings_aux, hsp]
  · intro acc s rest p v hsp hv
    simp [parse_subnet_mappings_aux, hsp, hv]

/-- Witness for C9 at concrete strings: `abc` is skipped without effect,
and `a=b` aborts the call. -/
theorem C9_malformed_mappings_witness :
    parse_subnet_mappings_aux [] ["abc".data, "10.0=5".data] =
        parse_subnet_mappings_aux [] ["10.0=5".data] ∧
      parse_subnet_mappings_aux [] ["a=b".data] = none :=
  ⟨C9_malformed_mappings.1 [] "abc".data ["10.0=5".data] (by decide),
   C9_malformed_mappings.2.1 [] "a=b".data [] "a".data "b".data (by decide)
     (by decide)⟩

/-- Resolver loop as a first-match search over the ordered table. -/
theorem subnet_lookup_loop_find (ip : List Char) :
    ∀ m, subnet_lookup_loop ip m =
      ((m.find? fun p => p.1.isPrefixOf ip).map Prod.snd, none)
  | [] => by simp [subnet_lookup_loop]
  | (pfx, sid) :: t => by
    cases hp : pfx.isPrefixOf ip with
    | true =>
      rw [List.find?_cons_of_pos _ (by simpa using hp)]
      simp [subnet_lookup_loop, hp]
    | false =>
      rw [List.find?_cons_of_neg _ (by simp [hp])]
      simpa [subnet_lookup_loop, hp] using subnet_lookup_loop_find ip t

/-- C5 (amended): resolution is first-match-wins over the table in its
stored order — for a nonempty address the resolver returns the id of the
first table entry whose prefix literally starts the address; building the
table appends a fresh prefix at the end (so distinct-prefix rules keep
registration order, and the claim's `10.0.0=1, 10.0=2` example resolves
`10.0.0.5` to 1), while re-registering an existing prefix overwrites its
id in place with the last value instead of keeping the first. -/
theorem C5_resolution_order :
    (∀ ip m, ip ≠ [] →
        subnet_lookup ip m =
          ((m.find? fun p => p.1.isPrefixOf ip).map Prod.snd, none)) ∧
      (∀ k v acc, (∀ q ∈ acc, q.1 ≠ k) → dictInsert k v acc = acc ++ [(k, v)]) ∧
      (parse_subnet_mappings ["10.0.0=1".data, "10.0=2".data]).1 =
          some [("10.0.0".data, 1), ("10.0".data, 2)] ∧
      subnet_lookup "10.0.0.5".data [("10.0.0".data, 1), ("10.0".data, 2)] =
        (some 1, none) := by
  refine ⟨?_, ?_, by decide, by decide⟩
  · intro ip m hip
    rw [subnet_lookup, if_neg (by simp [hip])]
    exact subnet_lookup_loop_find ip m
  · intro k v acc h
    induction acc with
    | nil => simp [dictInsert]
    | cons q t ih =>
      rw [dictInsert, if_neg (h q (by simp))]
      simp [ih fun x hx => h x (by simp [hx])]

/-- Witness for C5 at a concrete nonempty address and table. -/
theorem C5_resolution_order_witness :
    subnet_lookup "10.0.0.5".data [("10.0".data, 2)] =
      (((([("10.0".data, 2)]).find? fun p =>
          p.1.isPrefixOf "10.0.0.5".data).map Prod.snd), none) :=
  C5_resolution_order.1 "10.0.0.5".data [("10.0".data, 2)] (by decide)

/-- C6: whenever the resolver finds no match — no rule prefix starts the
fixed address, or the reservation has no fixed address at all — the
record's subnet id is the caller-supplied default; a reservation without
a fixed address gets address 0 and the no-IP client class, and one with
a fixed address gets null client classes. -/
theorem C6_default_fallback (no_ip : List Char) (did : Int)
    (smap : List (List Char × Int)) (m : RawMatch) (l : Lease)
    (h : normalize_match no_ip did smap m = some l) :
    ((subnet_lookup (py_or m.fa1 m.fa2) smap).1 = none →
        l.dhcp4_subnet_id = did) ∧
      (py_or m.fa1 m.fa2 = [] →
        l.ipv4_address = 0 ∧ l.dhcp4_client_classes = some no_ip) ∧
      (py_or m.fa1 m.fa2 ≠ [] → l.dhcp4_client_classes = none) := by
  simp only [normalize_match] at h
  cases hip : (if (py_or m.fa1 m.fa2).isEmpty then some 0
      else ip_to_int (py_or m.fa1 m.fa2)) with
  | none => rw [hip] at h; exact absurd h (by simp)
  | some ip =>
    rw [hip] at h
    simp only [Option.some_inj] at h
    subst h
    refine ⟨fun hnone => by simp [hnone], fun he => ?_, fun hne => by simp [hne]⟩
    have : (py_or m.fa1 m.fa2).isEmpty = true := by simp [he]
    rw [if_pos this] at hip
    simp only [Option.some_inj] at hip
    exact ⟨by simp [← hip], by simp [he]⟩

/-- Witness for C6 at the address-less beta reservation with default
subnet id 7. -/
theorem C6_default_fallback_witness :
    ((subnet_lookup (py_or [] []) []).1 = none →
        Lease.dhcp4_subnet_id
          { dhcp_identifier := "aa:bb:cc:dd:ee:ff".data
            dhcp_identifier_type := 0
            dhcp4_subnet_id := 7
            dhcp6_subnet_id := none
            ipv4_address := 0
            hostname := "beta".data
            dhcp4_client_classes := some "nix".data
            dhcp6_client_classes := []
            dhcp4_next_server := 0
            dhcp4_server_hostname := []
            dhcp4_boot_file_name := []
            user_context := []
            auth_key := [] } = 7) ∧
      (py_or [] [] = [] →
        Lease.ipv4_address
            { dhcp_identifier := "aa:bb:cc:dd:ee:ff".data
              dhcp_identifier_type := 0
              dhcp4_subnet_id := 7
              dhcp6_subnet_id := none
              ipv4_address := 0
              hostname := "beta".data
              dhcp4_client_classes := some "nix".data
              dhcp6_client_classes := []
              dhcp4_next_server := 0
              dhcp4_server_hostname := []
              dhcp4_boot_file_name := []
              user_context := []
              auth_key := [] } = 0 ∧
          Lease.dhcp4_client_classes
            { dhcp_identifier := "aa:bb:cc:dd:ee:ff".data
              dhcp_identifier_type := 0
              dhcp4_subnet_id := 7
              dhcp6_subnet_id := none
              ipv4_address := 0
              hostname := "beta".data
              dhcp4_client_classes := some "nix".data
              dhcp6_client_classes := []
              dhcp4_next_server := 0
              dhcp4_server_hostname := []
              dhcp4_boot_file_name := []
              user_context := []
              auth_key := [] } = some "nix".data) ∧
      (py_or [] [] ≠ [] →
        Lease.dhcp4_client_classes
          { dhcp_identifier := "aa:bb:cc:dd:ee:ff".data
            dhcp_identifier_type := 0
            dhcp4_subnet_id := 7
            dhcp6_subnet_id := none
            ipv4_address := 0
            hostname := "beta".data
            dhcp4_client_classes := some "nix".data
            dhcp6_client_classes := []
            dhcp4_next_server := 0
            dhcp4_server_hostname := []
            dhcp4_boot_file_name := []
            user_context := []
            auth_key := [] } = none) :=
  C6_default_fallback "nix".data 7 [] ⟨"beta".data, [], "aa:bb:cc:dd:ee:ff".data, []⟩
    _ (by decide)

/-- Soundness of the bounded character-class repetition. -/
theorem takeN_sound (p : Char → Bool) :
    ∀ n s xs r, takeN p n s = some (xs, r) → xs.length = n ∧ ∀ c ∈ xs, p c
  | 0, s, xs, r, h => by
    simp only [takeN, Option.some_inj, Prod.mk.injEq] at h
    simp [← h.1]
  | n + 1, [], xs, r, h => by simp [takeN] at h
  | n + 1, c :: cs, xs, r, h => by
    cases hc : p c with
    | false => simp [takeN, hc] at h
    | true =>
      simp only [takeN, hc, if_true, Option.map_eq_some'] at h
      obtain ⟨⟨ys, r'⟩, hys, hpair⟩ := h
      obtain ⟨hxs, hr⟩ := Prod.mk.injEq .. ▸ hpair
      have ih := takeN_sound p n cs ys r' hys
      subst hxs
      refine ⟨by simp [ih.1], ?_⟩
      intro d hd
      rcases List.mem_cons.mp hd with rfl | hd'
      · exact hc
      · exact ih.2 d hd'

/-- The trailing optional group hands back the MAC it was given. -/
theorem closeGroup_hwaddr (hn fa1 mac s4 : List Char) (m : RawMatch)
    (rest : List Char) (h : closeGroup hn fa1 mac s4 = some (m, rest)) :
    m.hwaddr = mac := by
  unfold closeGroup at h
  split at h
  · simp at h
  · obtain ⟨p, _, hfp⟩ := List.exists_of_findSome?_eq_some h
    split at hfp
    · split at hfp
      · simp only [Option.some_inj, Prod.mk.injEq] at hfp
        rw [← hfp.1]
      · simp at hfp
    · simp at hfp

/-- The bare block close hands back the MAC it was given. -/
theorem closeNoGroup_hwaddr (hn fa1 mac s4 : List Char) (m : RawMatch)
    (rest : List Char) (h : closeNoGroup hn fa1 mac s4 = some (m, rest)) :
    m.hwaddr = mac := by
  unfold closeNoGroup at h
  split at h
  · split at h
    · simp only [Option.some_inj, Prod.mk.injEq] at h
      rw [← h.1]
    · simp at h
  · simp at h

/-- The block close hands back the MAC it was given. -/
theorem matchClose_hwaddr (hn fa1 mac s4 : List Char) (m : RawMatch)
    (rest : List Char) (h : matchClose hn fa1 mac s4 = some (m, rest)) :
    m.hwaddr = mac := by
  unfold matchClose at h
  split at h
  · rename_i r hcg
    simp only [Option.some_inj] at h
    subst h
    exact closeGroup_hwaddr hn fa1 mac s4 m rest hcg
  · exact closeNoGroup_hwaddr hn fa1 mac s4 m rest h

/-- Every match produced from the hardware-line tail carries the MAC
captured by the 17-character class repetition. -/
theorem matchFromHw_hwaddr (hn fa1 s : List Char) (m : RawMatch) (rest : List Char)
    (h : matchFromHw hn fa1 s = some (m, rest)) : macShaped m.hwaddr := by
  unfold matchFromHw at h
  split at h
  · simp at h
  · rename_i s1 hlit
    split at h
    · simp at h
    · rename_i mac s2 htk
      have hmac := takeN_sound isHexColon 17 s1 mac s2 htk
      split at h
      · rename_i s3
        rw [matchClose_hwaddr hn fa1 mac (dropSpaces s3) m rest h]
        exact hmac
      · simp at h

/-- Lifting of the MAC shape through the optional first group. -/
theorem matchFromBody_hwaddr (hn s : List Char) (m : RawMatch) (rest : List Char)
    (h : matchFromBody hn s = some (m, rest)) : macShaped m.hwaddr := by
  unfold matchFromBody at h
  split at h
  · rename_i r hbg
    simp only [Option.some_inj] at h
    subst h
    unfold bodyGroup at hbg
    split at hbg
    · simp at hbg
    · obtain ⟨p, _, hfp⟩ := List.exists_of_findSome?_eq_some hbg
      exact matchFromHw_hwaddr hn p.1 (dropSpaces p.2) m rest hfp
  · exact matchFromHw_hwaddr hn [] s m rest h

/-- Lifting of the MAC shape through a whole anchored match. -/
theorem matchAt_hwaddr (s : List Char) (m : RawMatch) (rest : List Char)
    (h : matchAt s = some (m, rest)) : macShaped m.hwaddr := by
  unfold matchAt at h
  split at h
  · simp at h
  · split at h
    rename_i hn s2 htn
    by_cases hhn : hn = []
    · rw [if_pos hhn] at h
      exact absurd h (by simp)
    · rw [if_neg hhn] at h
      split at h
      · split at h
        · exact matchFromBody_hwaddr _ _ m rest h
        · simp at h
      · simp at h

/-- Lifting of the MAC shape through the scan loop. -/
theorem findAllAux_hwaddr :
    ∀ n s m, m ∈ findAllAux n s → macShaped m.hwaddr
  | 0, s, m, h => by simp [findAllAux] at h
  | n + 1, [], m, h => by simp [findAllAux] at h
  | n + 1, c :: t, m, h => by
    rw [findAllAux] at h
    split at h
    · rename_i m' rest' hma
      rcases List.mem_cons.mp h with rfl | h'
      · exact matchAt_hwaddr (c :: t) m rest' hma
      · exact findAllAux_hwaddr n rest' m h'
    · exact findAllAux_hwaddr n t m h

/-- C10: every reservation the extractor recognizes has a hardware token
of exactly 17 hex-or-colon characters; the unpadded MAC `1:2:3:a:B:c` is
too short, so its block is silently skipped and contributes no
reservation — even though `mac_to_bytea` would encode that MAC without
error to six bytes. -/
theorem C10_mac_token_gate :
    (∀ content m, m ∈ lease_pattern_findall content → macShaped m.hwaddr) ∧
      lease_pattern_findall
          ("host gamma \x7b\n  hardware ethernet 1:2:3:a:B:c;\n\x7d").data = [] ∧
      mac_to_bytea "1:2:3:a:B:c".data = some [1, 2, 3, 10, 11, 12] := by
  refine ⟨?_, by decide, by decide⟩
  intro content m h
  exact findAllAux_hwaddr (content.length + 1) content m h

/-- Witness for C10 on the §8 text: the alpha reservation's captured MAC
is 17 hex-or-colon characters. -/
theorem C10_mac_token_gate_witness :
    macShaped (RawMatch.hwaddr
      ⟨"alpha".data, [], "00:11:22:33:44:55".data, "128.111.106.10".data⟩) :=
  C10_mac_token_gate.1 s8content
    ⟨"alpha".data, [], "00:11:22:33:44:55".data, "128.111.106.10".data⟩
    (by decide)

/-- Only the space character lowercases to a space: uppercase letters
lower into the lowercase letters, every other character is fixed. -/
theorem toLower_eq_space (c : Char) (h : c.toLower = ' ') : c = ' ' := by
  unfold Char.toLower at h
  simp only [ge_iff_le] at h
  by_cases hn : 65 ≤ c.toNat ∧ c.toNat ≤ 90
  · exfalso
    rw [if_pos hn] at h
    have hval : (Char.ofNat (c.toNat + 32)).toNat = c.toNat + 32 := by
      rw [Char.ofNat, dif_pos (Or.inl (by omega))]
      rfl
    rw [h] at hval
    have hsp : (' ' : Char).toNat = 32 := by decide
    omega
  · rwa [if_neg hn] at h

/-- The six Python whitespace characters, by cases. -/
theorem isPySpace_cases (c : Char) (h : isPySpace c = true) :
    c = ' ' ∨ c = '\t' ∨ c = '\n' ∨ c = '\r' ∨ c = Char.ofNat 11 ∨ c = Char.ofNat 12 := by
  simpa [isPySpace, Bool.or_eq_true, decide_eq_true_eq, or_assoc] using h

/-- A character lowering to a non-whitespace character is itself
non-whitespace. -/
theorem nonspace_of_toLower (c r : Char) (h : c.toLower = r)
    (hr : isPySpace r = false) : isPySpace c = false := by
  cases hc : isPySpace c with
  | false => rfl
  | true =>
    exfalso
    rcases isPySpace_cases c hc with rfl | rfl | rfl | rfl | rfl | rfl <;>
      (subst h; exact absurd hr (by decide))

/-- A character lowering to something other than a semicolon is not a
semicolon. -/
theorem ne_semi_of_toLower (c r : Char) (h : c.toLower = r) (hr : r ≠ ';') :
    c ≠ ';' := by
  rintro rfl
  exact hr (by rw [← h]; decide)

/-- Whitespace never lowercases to the letter `h`. -/
theorem toLower_ne_h_of_space (c : Char) (h : isPySpace c = true) :
    c.toLower ≠ 'h' := by
  rcases isPySpace_cases c h with rfl | rfl | rfl | rfl | rfl | rfl <;> decide

/-- Characters of a case variant lower into the lowered reference. -/
theorem mem_lower (X L : List Char) (h : lowerEq X L) (c : Char) (hc : c ∈ X) :
    c.toLower ∈ L.map Char.toLower := by
  have hm : c.toLower ∈ X.map Char.toLower := List.mem_map_of_mem _ hc
  rwa [h] at hm

/-- A case variant of the empty string is empty. -/
theorem lowerEq_nil (X : List Char) (h : lowerEq X []) : X = [] := by
  cases X with
  | nil => rfl
  | cons x X' => simp [lowerEq] at h

/-- A case variant of a nonempty string splits off a first character
agreeing up to case. -/
theorem lowerEq_cons (X : List Char) (d : Char) (L : List Char)
    (h : lowerEq X (d :: L)) :
    ∃ x X', X = x :: X' ∧ x.toLower = d.toLower ∧ lowerEq X' L := by
  cases X with
  | nil => simp [lowerEq] at h
  | cons x X' =>
    simp only [lowerEq, List.map_cons, List.cons.injEq] at h
    exact ⟨x, X', rfl, h.1, h.2⟩

/-- Case variants compose over appending. -/
theorem lowerEq_append (a b c d : List Char) (h1 : lowerEq a b)
    (h2 : lowerEq c d) : lowerEq (a ++ c) (b ++ d) := by
  simp only [lowerEq, List.map_append]
  rw [h1, h2]

/-- A case-insensitive literal consumes exactly a case variant of
itself. -/
theorem litMatchCi_append :
    ∀ p q r : List Char, lowerEq q p → litMatchCi p (q ++ r) = some r
  | [], q, r, h => by
    rw [lowerEq_nil q h]
    rfl
  | d :: p', q, r, h => by
    obtain ⟨x, q', rfl, hx, h'⟩ := lowerEq_cons q d p' h
    simp only [List.cons_append, litMatchCi]
    rw [if_pos hx.symm]
    exact litMatchCi_append p' q' r h'

/-- A case-insensitive literal fails on a first character that does not
agree up to case. -/
theorem litMatchCi_head_ne (a : Char) (ps : List Char) (c : Char)
    (cs : List Char) (h : a.toLower ≠ c.toLower) :
    litMatchCi (a :: ps) (c :: cs) = none := by
  simp only [litMatchCi]
  rw [if_neg h]

/-- The greedy non-whitespace run stops exactly at the first whitespace
character. -/
theorem takeNonSpace_split :
    ∀ a : List Char, ∀ b r, (∀ c ∈ a, isPySpace c = false) →
      isPySpace b = true → takeNonSpace (a ++ b :: r) = (a, b :: r)
  | [], b, r, _, hb => by simp [takeNonSpace, hb]
  | c :: a', b, r, ha, hb => by
    have hc : isPySpace c = false := ha c (by simp)
    have ih := takeNonSpace_split a' b r (fun x hx => ha x (by simp [hx])) hb
    simp only [List.cons_append, takeNonSpace, hc, Bool.false_eq_true,
      if_false, List.append_eq, ih]

/-- The greedy whitespace skip stops exactly at the first
non-whitespace character. -/
theorem dropSpaces_split :
    ∀ w : List Char, ∀ b r, (∀ c ∈ w, isPySpace c = true) →
      isPySpace b = false → dropSpaces (w ++ b :: r) = b :: r
  | [], b, r, _, hb => by simp [dropSpaces, hb]
  | c :: w', b, r, hw, hb => by
    have hc : isPySpace c = true := hw c (by simp)
    have ih := dropSpaces_split w' b r (fun x hx => hw x (by simp [hx])) hb
    simp only [List.cons_append, dropSpaces, hc, if_true, List.append_eq, ih]

/-- The bounded class repetition consumes exactly a run of the right
length whose characters are all in the class. -/
theorem takeN_split (p : Char → Bool) :
    ∀ a : List Char, ∀ n r, (∀ c ∈ a, p c = true) → a.length = n →
      takeN p n (a ++ r) = some (a, r)
  | [], n, r, _, hn => by
    subst hn
    rfl
  | c :: a', n, r, ha, hn => by
    subst hn
    have hc : p c = true := ha c (by simp)
    have ih := takeN_split p a' a'.length r (fun x hx => ha x (by simp [hx])) rfl
    simp only [List.length_cons, List.cons_append, takeN, hc, if_true,
      List.append_eq, ih, Option.map_some']

/-- A leading run without semicolons admits no semicolon split. -/
theorem semiSplits0_eq_nil :
    ∀ s : List Char, noSemiRun s = true → semiSplits0 s = []
  | [], _ => rfl
  | c :: cs, h => by
    cases hc : isPySpace c with
    | true => simp [semiSplits0, hc]
    | false =>
      simp only [noSemiRun, hc, Bool.false_eq_true, if_false,
        Bool.and_eq_true, decide_eq_true_eq] at h
      simp [semiSplits0, hc, semiSplits0_eq_nil cs h.2, h.1]

/-- With a semicolon-free capture and a semicolon-free following run,
the zero-or-more split is unique. -/
theorem semiSplits0_split :
    ∀ a : List Char, ∀ rest, (∀ c ∈ a, isPySpace c = false ∧ c ≠ ';') →
      noSemiRun rest = true → semiSplits0 (a ++ ';' :: rest) = [(a, rest)]
  | [], rest, _, hrest => by
    have hsemi : isPySpace ';' = false := by decide
    simp [semiSplits0, semiSplits0_eq_nil rest hrest, hsemi]
  | c :: a', rest, ha, hrest => by
    obtain ⟨hc1, hc2⟩ := ha c (by simp)
    have ih := semiSplits0_split a' rest (fun x hx => ha x (by simp [hx])) hrest
    simp only [List.cons_append, semiSplits0, hc1, Bool.false_eq_true, if_false,
      List.append_eq, ih, List.map_cons, List.map_nil, if_neg hc2, List.append_nil]

/-- With a semicolon-free nonempty capture and a semicolon-free
following run, the one-or-more capture has a single candidate. -/
theorem semiCandidates_split (a rest : List Char) (hne : a ≠ [])
    (ha : ∀ c ∈ a, isPySpace c = false ∧ c ≠ ';')
    (hrest : noSemiRun rest = true) :
    semiCandidates (a ++ ';' :: rest) = [(a, rest)] := by
  match a, hne with
  | x :: a', _ =>
    obtain ⟨hx1, _⟩ := ha x (by simp)
    have hsub := semiSplits0_split a' rest (fun c hc => ha c (by simp [hc])) hrest
    simp only [List.cons_append, semiCandidates, hx1, Bool.false_eq_true, if_false,
      List.append_eq, hsub, List.map_cons, List.map_nil]

/-- A leading whitespace character settles the semicolon guard. -/
theorem noSemiRun_space_cons (c : Char) (cs : List Char)
    (h : isPySpace c = true) : noSemiRun (c :: cs) = true := by
  simp [noSemiRun, h]

/-- Whitespace followed by the closing brace holds no semicolon run. -/
theorem noSemiRun_spaces_rbrace (w : List Char) (hw : allSpace w) :
    noSemiRun (w ++ [rbrace]) = true := by
  cases w with
  | nil => decide
  | cons c w' =>
    rw [List.cons_append]
    exact noSemiRun_space_cons c _ (hw c (by simp))

/-- A case variant of a keyword with an inner space reaches whitespace
before any semicolon, whatever follows it. -/
theorem noSemiRun_lower_space :
    ∀ L X M tail2 : List Char, lowerEq X (L ++ ' ' :: M) →
      (∀ d ∈ L, Char.toLower d = d ∧ isPySpace d = false ∧ d ≠ ';') →
      noSemiRun (X ++ tail2) = true
  | [], X, M, tail2, h, _ => by
    obtain ⟨x, X', rfl, hx, _⟩ := lowerEq_cons X ' ' M h
    have hsp : x = ' ' := toLower_eq_space x (by rw [hx]; decide)
    subst hsp
    rw [List.cons_append]
    exact noSemiRun_space_cons _ _ (by decide)
  | d :: L', X, M, tail2, h, hL => by
    obtain ⟨hd1, hd2, hd3⟩ := hL d (by simp)
    obtain ⟨x, X', rfl, hx, h'⟩ := lowerEq_cons X d (L' ++ ' ' :: M) h
    have hx' : x.toLower = d := by rw [hx, hd1]
    have hxs : isPySpace x = false := nonspace_of_toLower x d hx' hd2
    have hxne : x ≠ ';' := ne_semi_of_toLower x d hx' hd3
    have ih := noSemiRun_lower_space L' X' M tail2 h'
      (fun e he => hL e (by simp [he]))
    simp [noSemiRun, List.cons_append, hxs, hxne, ih]

/-- Whitespace, then a case variant of `hardware ethernet`, holds no
semicolon run either: the gap may even be empty, because the keyword
itself contains a space before any semicolon could appear. -/
theorem noSemiRun_spaces_hw (w HWv tail2 : List Char) (hw : allSpace w)
    (hHW : lowerEq HWv "hardware ethernet".data) :
    noSemiRun (w ++ (HWv ++ tail2)) = true := by
  cases w with
  | nil =>
    rw [List.nil_append]
    refine noSemiRun_lower_space "hardware".data HWv "ethernet".data tail2 ?_ (by decide)
    have : "hardware ethernet".data = "hardware".data ++ ' ' :: "ethernet".data := by decide
    rwa [this] at hHW
  | cons c w' =>
    rw [List.cons_append]
    exact noSemiRun_space_cons c _ (hw c (by simp))

/-- Step: the `host <hostname> <lbrace>` head of the pattern consumes a
case variant of `host`, a space, the hostname token, a space and the
opening brace, and continues in the block body after the greedy
whitespace skip. -/
theorem step_host (Hv hn rest : List Char) (hH : lowerEq Hv "host".data)
    (h1 : hn ≠ []) (h2 : ∀ c ∈ hn, isPySpace c = false) :
    matchAt (Hv ++ (' ' :: (hn ++ (' ' :: lbrace :: rest)))) =
      matchFromBody hn (dropSpaces rest) := by
  have hlit : litMatchCi hostLit (Hv ++ (' ' :: (hn ++ (' ' :: lbrace :: rest)))) =
      some (hn ++ (' ' :: lbrace :: rest)) := by
    have hassoc : Hv ++ (' ' :: (hn ++ (' ' :: lbrace :: rest))) =
        (Hv ++ [' ']) ++ (hn ++ (' ' :: lbrace :: rest)) := by simp
    rw [hassoc]
    refine litMatchCi_append hostLit (Hv ++ [' ']) _ ?_
    have hsp : hostLit = "host".data ++ [' '] := by decide
    rw [hsp]
    exact lowerEq_append Hv "host".data [' '] [' '] hH rfl
  have htn : takeNonSpace (hn ++ (' ' :: lbrace :: rest)) =
      (hn, ' ' :: lbrace :: rest) :=
    takeNonSpace_split hn ' ' (lbrace :: rest) h2 (by decide)
  simp only [matchAt, hlit, htn]
  rw [if_neg h1]
  simp

/-- Step: the hardware line consumes a case variant of
`hardware ethernet`, a space, the 17-character MAC and the semicolon,
and continues in the block close after the greedy whitespace skip. -/
theorem step_hw (HWv mac hn fa1 rest : List Char)
    (hHW : lowerEq HWv "hardware ethernet".data) (hlen : mac.length = 17)
    (hchars : ∀ c ∈ mac, isHexColon c = true) :
    matchFromHw hn fa1 (HWv ++ (' ' :: (mac ++ (';' :: rest)))) =
      matchClose hn fa1 mac (dropSpaces rest) := by
  have hlit : litMatchCi hwLit (HWv ++ (' ' :: (mac ++ (';' :: rest)))) =
      some (mac ++ (';' :: rest)) := by
    have hassoc : HWv ++ (' ' :: (mac ++ (';' :: rest))) =
        (HWv ++ [' ']) ++ (mac ++ (';' :: rest)) := by simp
    rw [hassoc]
    refine litMatchCi_append hwLit (HWv ++ [' ']) _ ?_
    have hsp : hwLit = "hardware ethernet".data ++ [' '] := by decide
    rw [hsp]
    exact lowerEq_append HWv "hardware ethernet".data [' '] [' '] hHW rfl
  have htk : takeN isHexColon 17 (mac ++ (';' :: rest)) =
      some (mac, ';' :: rest) :=
    takeN_split isHexColon mac 17 (';' :: rest) hchars hlen
  simp only [matchFromHw, hlit, htk]

/-- The leading optional group fails immediately on a head character
that is not an `f` up to case. -/
theorem bodyGroup_none (hn : List Char) (x : Char) (xs : List Char)
    (hx : x.toLower ≠ 'f') : bodyGroup hn (x :: xs) = none := by
  have hsp : faLit = 'f' :: "ixed-address ".data := by decide
  have hne : litMatchCi faLit (x :: xs) = none := by
    rw [hsp]
    exact litMatchCi_head_ne 'f' _ x xs (by rw [show ('f').toLower = 'f' by decide]; exact fun e => hx e.symm)
  simp [bodyGroup, hne]

/-- The trailing optional group fails immediately on a head character
that is not an `f` up to case. -/
theorem closeGroup_none (hn fa1 mac : List Char) (x : Char) (xs : List Char)
    (hx : x.toLower ≠ 'f') : closeGroup hn fa1 mac (x :: xs) = none := by
  have hsp : faLit = 'f' :: "ixed-address ".data := by decide
  have hne : litMatchCi faLit (x :: xs) = none := by
    rw [hsp]
    exact litMatchCi_head_ne 'f' _ x xs (by rw [show ('f').toLower = 'f' by decide]; exact fun e => hx e.symm)
  simp [closeGroup, hne]

/-- Step: with a case variant of `hardware ethernet` ahead, the optional
leading group is skipped and the match proceeds with an empty first
capture. -/
theorem step_body_nofa (hn HWv tail : List Char)
    (hHW : lowerEq HWv "hardware ethernet".data) :
    matchFromBody hn (HWv ++ tail) = matchFromHw hn [] (HWv ++ tail) := by
  obtain ⟨x, X', rfl, hx, _⟩ := lowerEq_cons HWv 'h' "ardware ethernet".data
    (by rwa [show ('h' :: "ardware ethernet".data) = "hardware ethernet".data by decide])
  have hbg : bodyGroup hn (x :: (X' ++ tail)) = none :=
    bodyGroup_none hn x _ (by rw [hx]; decide)
  simp [matchFromBody, hbg]

/-- Step: the optional leading group consumes a case variant of
`fixed-address`, a space, the address token and its semicolon, and the
match continues after the greedy whitespace skip with that capture —
succeeding whenever the continuation does. -/
theorem step_body_group (hn Fv fa rest : List Char) (r : RawMatch × List Char)
    (hF : lowerEq Fv "fixed-address".data) (hfa : faTok fa)
    (hrest : noSemiRun rest = true)
    (hsucc : matchFromHw hn fa (dropSpaces rest) = some r) :
    matchFromBody hn (Fv ++ (' ' :: (fa ++ (';' :: rest)))) = some r := by
  have hlit : litMatchCi faLit (Fv ++ (' ' :: (fa ++ (';' :: rest)))) =
      some (fa ++ (';' :: rest)) := by
    have hassoc : Fv ++ (' ' :: (fa ++ (';' :: rest))) =
        (Fv ++ [' ']) ++ (fa ++ (';' :: rest)) := by simp
    rw [hassoc]
    refine litMatchCi_append faLit (Fv ++ [' ']) _ ?_
    have hsp : faLit = "fixed-address".data ++ [' '] := by decide
    rw [hsp]
    exact lowerEq_append Fv "fixed-address".data [' '] [' '] hF rfl
  have hcand : semiCandidates (fa ++ (';' :: rest)) = [(fa, rest)] :=
    semiCandidates_split fa rest hfa.1.1
      (fun c hc => ⟨hfa.1.2 c hc, fun e => hfa.2 (e ▸ hc)⟩) hrest
  have hbg : bodyGroup hn (Fv ++ (' ' :: (fa ++ (';' :: rest)))) = some r := by
    simp only [bodyGroup, hlit, hcand, List.findSome?_cons, hsucc]
  simp [matchFromBody, hbg]

/-- Step: at a bare closing brace the trailing optional group is skipped
and the block match ends with an empty second capture. -/
theorem step_close_nogroup (hn fa1 mac tail : List Char) :
    matchClose hn fa1 mac (rbrace :: tail) =
      some (⟨hn, fa1, mac, []⟩, tail) := by
  have hcg : closeGroup hn fa1 mac (rbrace :: tail) = none :=
    closeGroup_none hn fa1 mac rbrace tail (by decide)
  simp [matchClose, hcg, closeNoGroup]

/-- Step: the trailing optional group consumes a case variant of
`fixed-address`, a space, the address token and its semicolon, then
whitespace and the closing brace, ending the block match with that
second capture. -/
theorem step_close_group (hn fa1 mac Fv fa w : List Char)
    (hF : lowerEq Fv "fixed-address".data) (hfa : faTok fa)
    (hw : allSpace w) :
    matchClose hn fa1 mac (Fv ++ (' ' :: (fa ++ (';' :: (w ++ [rbrace]))))) =
      some (⟨hn, fa1, mac, fa⟩, []) := by
  have hlit : litMatchCi faLit (Fv ++ (' ' :: (fa ++ (';' :: (w ++ [rbrace]))))) =
      some (fa ++ (';' :: (w ++ [rbrace]))) := by
    have hassoc : Fv ++ (' ' :: (fa ++ (';' :: (w ++ [rbrace])))) =
        (Fv ++ [' ']) ++ (fa ++ (';' :: (w ++ [rbrace]))) := by simp
    rw [hassoc]
    refine litMatchCi_append faLit (Fv ++ [' ']) _ ?_
    have hsp : faLit = "fixed-address".data ++ [' '] := by decide
    rw [hsp]
    exact lowerEq_append Fv "fixed-address".data [' '] [' '] hF rfl
  have hcand : semiCandidates (fa ++ (';' :: (w ++ [rbrace]))) =
      [(fa, w ++ [rbrace])] :=
    semiCandidates_split fa (w ++ [rbrace]) hfa.1.1
      (fun c hc => ⟨hfa.1.2 c hc, fun e => hfa.2 (e ▸ hc)⟩)
      (noSemiRun_spaces_rbrace w hw)
  have hdrop : dropSpaces (w ++ [rbrace]) = [rbrace] :=
    dropSpaces_split w rbrace [] hw (by decide)
  have hcg : closeGroup hn fa1 mac
      (Fv ++ (' ' :: (fa ++ (';' :: (w ++ [rbrace]))))) =
      some (⟨hn, fa1, mac, fa⟩, []) := by
    simp only [closeGroup, hlit, hcand, List.findSome?_cons, hdrop]
    simp
  simp [matchClose, hcg]

/-- The hardware tail fails immediately on a head character that is not
an `h` up to case. -/
theorem matchFromHw_none (hn fa1 : List Char) (x : Char) (xs : List Char)
    (hx : x.toLower ≠ 'h') : matchFromHw hn fa1 (x :: xs) = none := by
  have hsp : hwLit = 'h' :: "ardware ethernet ".data := by decide
  have hne : litMatchCi hwLit (x :: xs) = none := by
    rw [hsp]
    exact litMatchCi_head_ne 'h' _ x xs
      (by rw [show ('h').toLower = 'h' by decide]; exact fun e => hx e.symm)
  simp [matchFromHw, hne]

/-- An anchored match fails immediately on a head character that is not
an `h` up to case. -/
theorem matchAt_nonh (c : Char) (t : List Char) (h : c.toLower ≠ 'h') :
    matchAt (c :: t) = none := by
  have hsp : hostLit = 'h' :: "ost ".data := by decide
  have hne : litMatchCi hostLit (c :: t) = none := by
    rw [hsp]
    exact litMatchCi_head_ne 'h' _ c t
      (by rw [show ('h').toLower = 'h' by decide]; exact fun e => h e.symm)
  simp [matchAt, hne]

/-- An anchored match needs input. -/
theorem matchAt_nil : matchAt [] = none := by decide

/-- Text without any character lowering to `h` holds no match. -/
theorem findAllAux_nonh :
    ∀ n s, (∀ c ∈ s, c.toLower ≠ 'h') → findAllAux n s = []
  | 0, _, _ => rfl
  | _ + 1, [], _ => rfl
  | n + 1, c :: t, h => by
    have ih := findAllAux_nonh n t (fun x hx => h x (by simp [hx]))
    simp [findAllAux, matchAt_nonh c t (h c (by simp)), ih]

/-- A text consumed by a single anchored match extracts exactly that
match. -/
theorem findall_of_matchAt (s : List Char) (m : RawMatch)
    (h : matchAt s = some (m, [])) : lease_pattern_findall s = [m] := by
  match s with
  | [] => rw [matchAt_nil] at h; exact absurd h (by simp)
  | c :: t => simp [lease_pattern_findall, findAllAux, h]

/-- A text whose head position fails and whose tail has no `h` extracts
nothing. -/
theorem findall_none (c : Char) (t : List Char)
    (h0 : matchAt (c :: t) = none) (ht : ∀ x ∈ t, x.toLower ≠ 'h') :
    lease_pattern_findall (c :: t) = [] := by
  simp [lease_pattern_findall, findAllAux, h0, findAllAux_nonh _ t ht]

/-- Characters of a case variant whose lowered reference avoids `h`
avoid `h` after lowering. -/
theorem ne_h_of_lower_mem (X L : List Char) (c : Char) (h : lowerEq X L)
    (hc : c ∈ X) (hall : ∀ y ∈ L.map Char.toLower, y ≠ 'h') :
    c.toLower ≠ 'h' :=
  hall _ (mem_lower X L h c hc)

/-- A case variant of `hardware ethernet` splits off its first
character, an `h` up to case. -/
theorem hw_head (HWv : List Char) (hHW : lowerEq HWv "hardware ethernet".data) :
    ∃ x X', HWv = x :: X' ∧ x.toLower = 'h' ∧ isPySpace x = false := by
  obtain ⟨x, X', rfl, hx, _⟩ := lowerEq_cons HWv 'h' "ardware ethernet".data
    (by rwa [show ('h' :: "ardware ethernet".data) = "hardware ethernet".data by decide])
  have hx' : x.toLower = 'h' := by rw [hx]; decide
  exact ⟨x, X', rfl, hx', nonspace_of_toLower x 'h' hx' (by decide)⟩

/-- A case variant of `fixed-address` splits off its first character,
an `f` up to case. -/
theorem fa_head (Fv : List Char) (hF : lowerEq Fv "fixed-address".data) :
    ∃ x X', Fv = x :: X' ∧ x.toLower = 'f' ∧ isPySpace x = false := by
  obtain ⟨x, X', rfl, hx, _⟩ := lowerEq_cons Fv 'f' "ixed-address".data
    (by rwa [show ('f' :: "ixed-address".data) = "fixed-address".data by decide])
  have hx' : x.toLower = 'f' := by rw [hx]; decide
  exact ⟨x, X', rfl, hx', nonspace_of_toLower x 'f' hx' (by decide)⟩

/-- Anchored match of a block without a `fixed-address` line. -/
theorem matchAt_blockNoFa (Hv hn w1 HWv mac w3 : List Char)
    (hH : lowerEq Hv "host".data) (hhn : nonSpaceTok hn)
    (hHW : lowerEq HWv "hardware ethernet".data) (hmac : macShaped mac)
    (hw1 : allSpace w1) (hw3 : allSpace w3) :
    matchAt (blockNoFa Hv hn w1 HWv mac w3) = some (⟨hn, [], mac, []⟩, []) := by
  rw [blockNoFa, step_host Hv hn _ hH hhn.1 hhn.2]
  obtain ⟨x, X', rfl, hx, hxs⟩ := hw_head HWv hHW
  rw [List.cons_append]
  rw [dropSpaces_split w1 x _ hw1 hxs]
  rw [← List.cons_append]
  rw [step_body_nofa hn (x :: X') _ hHW]
  rw [step_hw (x :: X') mac hn [] _ hHW hmac.1 (fun c hc => hmac.2 c hc)]
  rw [dropSpaces_split w3 rbrace [] hw3 (by decide)]
  exact step_close_nogroup hn [] mac []

/-- Anchored match of a block with the `fixed-address` line first. -/
theorem matchAt_blockFaBefore (Hv hn w1 Fv fa w2 HWv mac w3 : List Char)
    (hH : lowerEq Hv "host".data) (hhn : nonSpaceTok hn)
    (hF : lowerEq Fv "fixed-address".data) (hfa : faTok fa)
    (hHW : lowerEq HWv "hardware ethernet".data) (hmac : macShaped mac)
    (hw1 : allSpace w1) (hw2 : allSpace w2) (hw3 : allSpace w3) :
    matchAt (blockFaBefore Hv hn w1 Fv fa w2 HWv mac w3) =
      some (⟨hn, fa, mac, []⟩, []) := by
  rw [blockFaBefore, step_host Hv hn _ hH hhn.1 hhn.2]
  obtain ⟨f, F', rfl, hf, hfs⟩ := fa_head Fv hF
  rw [List.cons_append]
  rw [dropSpaces_split w1 f _ hw1 hfs]
  rw [← List.cons_append]
  refine step_body_group hn (f :: F') fa _ _ hF hfa
    (noSemiRun_spaces_hw w2 HWv _ hw2 hHW) ?_
  obtain ⟨x, X', rfl, hx, hxs⟩ := hw_head HWv hHW
  rw [List.cons_append]
  rw [dropSpaces_split w2 x _ hw2 hxs]
  rw [← List.cons_append]
  rw [step_hw (x :: X') mac hn fa _ hHW hmac.1 (fun c hc => hmac.2 c hc)]
  rw [dropSpaces_split w3 rbrace [] hw3 (by decide)]
  exact step_close_nogroup hn fa mac []

/-- Anchored match of a block with the `fixed-address` line last. -/
theorem matchAt_blockFaAfter (Hv hn w1 HWv mac w2 Fv fa w3 : List Char)
    (hH : lowerEq Hv "host".data) (hhn : nonSpaceTok hn)
    (hHW : lowerEq HWv "hardware ethernet".data) (hmac : macShaped mac)
    (hF : lowerEq Fv "fixed-address".data) (hfa : faTok fa)
    (hw1 : allSpace w1) (hw2 : allSpace w2) (hw3 : allSpace w3) :
    matchAt (blockFaAfter Hv hn w1 HWv mac w2 Fv fa w3) =
      some (⟨hn, [], mac, fa⟩, []) := by
  rw [blockFaAfter, step_host Hv hn _ hH hhn.1 hhn.2]
  obtain ⟨x, X', rfl, hx, hxs⟩ := hw_head HWv hHW
  rw [List.cons_append]
  rw [dropSpaces_split w1 x _ hw1 hxs]
  rw [← List.cons_append]
  rw [step_body_nofa hn (x :: X') _ hHW]
  rw [step_hw (x :: X') mac hn [] _ hHW hmac.1 (fun c hc => hmac.2 c hc)]
  obtain ⟨f, F', rfl, hf, hfs⟩ := fa_head Fv hF
  rw [List.cons_append]
  rw [dropSpaces_split w2 f _ hw2 hfs]
  rw [← List.cons_append]
  exact step_close_group hn [] mac (f :: F') fa w3 hF hfa hw3

/-- Anchored match of a block lacking the hardware line fails. -/
theorem matchAt_blockNoHw (Hv hn w1 Fv fa w2 : List Char)
    (hH : lowerEq Hv "host".data) (hhn : nonSpaceTok hn)
    (hF : lowerEq Fv "fixed-address".data) (hfa : faTok fa)
    (hw1 : allSpace w1) (hw2 : allSpace w2) :
    matchAt (blockNoHw Hv hn w1 Fv fa w2) = none := by
  rw [blockNoHw, step_host Hv hn _ hH hhn.1 hhn.2]
  obtain ⟨f, F', rfl, hf, hfs⟩ := fa_head Fv hF
  rw [List.cons_append]
  rw [dropSpaces_split w1 f _ hw1 hfs]
  have hlit : litMatchCi faLit (f :: (F' ++ (' ' :: (fa ++ (';' :: (w2 ++ [rbrace])))))) =
      some (fa ++ (';' :: (w2 ++ [rbrace]))) := by
    have hassoc : f :: (F' ++ (' ' :: (fa ++ (';' :: (w2 ++ [rbrace]))))) =
        ((f :: F') ++ [' ']) ++ (fa ++ (';' :: (w2 ++ [rbrace]))) := by simp
    rw [hassoc]
    refine litMatchCi_append faLit ((f :: F') ++ [' ']) _ ?_
    have hsp : faLit = "fixed-address".data ++ [' '] := by decide
    rw [hsp]
    exact lowerEq_append (f :: F') "fixed-address".data [' '] [' '] hF rfl
  have hcand : semiCandidates (fa ++ (';' :: (w2 ++ [rbrace]))) =
      [(fa, w2 ++ [rbrace])] :=
    semiCandidates_split fa (w2 ++ [rbrace]) hfa.1.1
      (fun c hc => ⟨hfa.1.2 c hc, fun e => hfa.2 (e ▸ hc)⟩)
      (noSemiRun_spaces_rbrace w2 hw2)
  have hdrop : dropSpaces (w2 ++ [rbrace]) = [rbrace] :=
    dropSpaces_split w2 rbrace [] hw2 (by decide)
  have hhw : matchFromHw hn fa (dropSpaces (w2 ++ [rbrace])) = none := by
    rw [hdrop]
    exact matchFromHw_none hn fa rbrace [] (by decide)
  have hbg : bodyGroup hn (f :: (F' ++ (' ' :: (fa ++ (';' :: (w2 ++ [rbrace])))))) = none := by
    simp only [bodyGroup, hlit, hcand, List.findSome?_cons, hhw]
    rfl
  have hfallback : matchFromHw hn []
      (f :: (F' ++ (' ' :: (fa ++ (';' :: (w2 ++ [rbrace])))))) = none :=
    matchFromHw_none hn [] f _ (by rw [hf]; decide)
  simp only [matchFromBody, hbg, hfallback]

/-- Anchored match of a block with an empty body fails. -/
theorem matchAt_blockBare (Hv hn w1 : List Char)
    (hH : lowerEq Hv "host".data) (hhn : nonSpaceTok hn)
    (hw1 : allSpace w1) :
    matchAt (blockBare Hv hn w1) = none := by
  rw [blockBare, step_host Hv hn _ hH hhn.1 hhn.2]
  rw [dropSpaces_split w1 rbrace [] hw1 (by decide)]
  have hbg : bodyGroup hn [rbrace] = none :=
    bodyGroup_none hn rbrace [] (by decide)
  have hfallback : matchFromHw hn [] [rbrace] = none :=
    matchFromHw_none hn [] rbrace [] (by decide)
  simp [matchFromBody, hbg, hfallback]

/-- No character after the initial `h` of a hardware-less block lowers
to `h`, provided neither the hostname nor the address token holds one. -/
theorem tail_noH_noHw (V' hn w1 Fv fa w2 : List Char)
    (hV' : lowerEq V' "ost".data) (hF : lowerEq Fv "fixed-address".data)
    (hnh : ∀ c ∈ hn, c.toLower ≠ 'h') (hfh : ∀ c ∈ fa, c.toLower ≠ 'h')
    (hw1 : allSpace w1) (hw2 : allSpace w2) :
    ∀ x ∈ V' ++ (' ' :: (hn ++ (' ' :: lbrace ::
      (w1 ++ (Fv ++ (' ' :: (fa ++ (';' :: (w2 ++ [rbrace]))))))))),
      x.toLower ≠ 'h' := by
  intro x hx
  rcases List.mem_append.mp hx with hx | hx
  · exact ne_h_of_lower_mem V' "ost".data x hV' hx (by decide)
  rcases List.mem_cons.mp hx with rfl | hx
  · decide
  rcases List.mem_append.mp hx with hx | hx
  · exact hnh x hx
  rcases List.mem_cons.mp hx with rfl | hx
  · decide
  rcases List.mem_cons.mp hx with rfl | hx
  · decide
  rcases List.mem_append.mp hx with hx | hx
  · exact toLower_ne_h_of_space x (hw1 x hx)
  rcases List.mem_append.mp hx with hx | hx
  · exact ne_h_of_lower_mem Fv "fixed-address".data x hF hx (by decide)
  rcases List.mem_cons.mp hx with rfl | hx
  · decide
  rcases List.mem_append.mp hx with hx | hx
  · exact hfh x hx
  rcases List.mem_cons.mp hx with rfl | hx
  · decide
  rcases List.mem_append.mp hx with hx | hx
  · exact toLower_ne_h_of_space x (hw2 x hx)
  rcases List.mem_cons.mp hx with rfl | hx
  · decide
  · exact absurd hx (List.not_mem_nil x)

/-- No character after the initial `h` of an empty-bodied block lowers
to `h`, provided the hostname holds none. -/
theorem tail_noH_bare (V' hn w1 : List Char) (hV' : lowerEq V' "ost".data)
    (hnh : ∀ c ∈ hn, c.toLower ≠ 'h') (hw1 : allSpace w1) :
    ∀ x ∈ V' ++ (' ' :: (hn ++ (' ' :: lbrace :: (w1 ++ [rbrace])))),
      x.toLower ≠ 'h' := by
  intro x hx
  rcases List.mem_append.mp hx with hx | hx
  · exact ne_h_of_lower_mem V' "ost".data x hV' hx (by decide)
  rcases List.mem_cons.mp hx with rfl | hx
  · decide
  rcases List.mem_append.mp hx with hx | hx
  · exact hnh x hx
  rcases List.mem_cons.mp hx with rfl | hx
  · decide
  rcases List.mem_cons.mp hx with rfl | hx
  · decide
  rcases List.mem_append.mp hx with hx | hx
  · exact toLower_ne_h_of_space x (hw1 x hx)
  rcases List.mem_cons.mp hx with rfl | hx
  · decide
  · exact absurd hx (List.not_mem_nil x)

/-- C4: a reservation block of the grammar — a host line, a required
hardware-ethernet line, and an optional fixed-address line before or
after it — extracts as exactly one reservation tuple, whatever the
whitespace fillers between the statements and whatever the letter case
of the keyword tokens; the fixed-address capture lands in the group
matching its position and is empty when the line is absent.  A block
lacking the hardware-ethernet line (here with hostname and address free
of the letter `h`, so that no stray partial match can start inside
them) yields no reservation. -/
theorem C4_block_grammar (Hv HWv Fv hn fa mac w1 w2 w3 : List Char)
    (hH : lowerEq Hv "host".data)
    (hHW : lowerEq HWv "hardware ethernet".data)
    (hF : lowerEq Fv "fixed-address".data)
    (hhn : nonSpaceTok hn) (hfa : faTok fa) (hmac : macShaped mac)
    (hw1 : allSpace w1) (hw2 : allSpace w2) (hw3 : allSpace w3) :
    lease_pattern_findall (blockNoFa Hv hn w1 HWv mac w3) = [⟨hn, [], mac, []⟩] ∧
      lease_pattern_findall (blockFaBefore Hv hn w1 Fv fa w2 HWv mac w3) =
        [⟨hn, fa, mac, []⟩] ∧
      lease_pattern_findall (blockFaAfter Hv hn w1 HWv mac w2 Fv fa w3) =
        [⟨hn, [], mac, fa⟩] ∧
      ((∀ c ∈ hn, c.toLower ≠ 'h') → (∀ c ∈ fa, c.toLower ≠ 'h') →
        lease_pattern_findall (blockNoHw Hv hn w1 Fv fa w2) = [] ∧
          lease_pattern_findall (blockBare Hv hn w1) = []) := by
  refine ⟨findall_of_matchAt _ _
      (matchAt_blockNoFa Hv hn w1 HWv mac w3 hH hhn hHW hmac hw1 hw3),
    findall_of_matchAt _ _
      (matchAt_blockFaBefore Hv hn w1 Fv fa w2 HWv mac w3 hH hhn hF hfa hHW hmac
        hw1 hw2 hw3),
    findall_of_matchAt _ _
      (matchAt_blockFaAfter Hv hn w1 HWv mac w2 Fv fa w3 hH hhn hHW hmac hF hfa
        hw1 hw2 hw3), ?_⟩
  intro hnh hfh
  obtain ⟨v, V', rfl, hv, hV'⟩ := lowerEq_cons Hv 'h' "ost".data
    (by rwa [show ('h' :: "ost".data) = "host".data by decide])
  constructor
  · have hma := matchAt_blockNoHw (v :: V') hn w1 Fv fa w2 hH hhn hF hfa hw1 hw2
    rw [blockNoHw, List.cons_append] at hma ⊢
    exact findall_none v _ hma
      (tail_noH_noHw V' hn w1 Fv fa w2 hV' hF hnh hfh hw1 hw2)
  · have hma := matchAt_blockBare (v :: V') hn w1 hH hhn hw1
    rw [blockBare, List.cons_append] at hma ⊢
    exact findall_none v _ hma (tail_noH_bare V' hn w1 hV' hnh hw1)

/-- Witness for C4 at a concrete block family: mixed-case keywords,
assorted whitespace (including an empty filler), both positions of the
optional line, and the hardware-less shapes. -/
theorem C4_block_grammar_witness :
    lease_pattern_findall
        (blockNoFa "HoSt".data "gamma".data "\n  ".data
          "HARDWARE ETHERNET".data "00:11:22:33:44:55".data "\n".data) =
      [⟨"gamma".data, [], "00:11:22:33:44:55".data, []⟩] ∧
      lease_pattern_findall
          (blockFaBefore "HoSt".data "gamma".data "\n  ".data
            "Fixed-Address".data "10.0.0.9".data "".data
            "HARDWARE ETHERNET".data "00:11:22:33:44:55".data "\n".data) =
        [⟨"gamma".data, "10.0.0.9".data, "00:11:22:33:44:55".data, []⟩] ∧
      lease_pattern_findall
          (blockFaAfter "HoSt".data "gamma".data "\n  ".data
            "HARDWARE ETHERNET".data "00:11:22:33:44:55".data "".data
            "Fixed-Address".data "10.0.0.9".data "\n".data) =
        [⟨"gamma".data, [], "00:11:22:33:44:55".data, "10.0.0.9".data⟩] ∧
      ((∀ c ∈ "gamma".data, c.toLower ≠ 'h') →
        (∀ c ∈ "10.0.0.9".data, c.toLower ≠ 'h') →
        lease_pattern_findall
            (blockNoHw "HoSt".data "gamma".data "\n  ".data
              "Fixed-Address".data "10.0.0.9".data "".data) = [] ∧
          lease_pattern_findall
            (blockBare "HoSt".data "gamma".data "\n  ".data) = []) :=
  C4_block_grammar "HoSt".data "HARDWARE ETHERNET".data "Fixed-Address".data
    "gamma".data "10.0.0.9".data "00:11:22:33:44:55".data
    "\n  ".data "".data "\n".data
    (by decide) (by decide) (by decide) (by decide) (by decide) (by decide)
    (by decide) (by decide) (by decide)

end DhcpdToKea
